import Mathlib

/-!
# Verification of the loop-nesting time-complexity analyzer (`complexity.py`)

Shallow embedding of the three-stage pipeline:
* `extract_iterable` — classifies a loop's iteration-source expression;
* `LoopTreeVisitor` (embedded as `buildS`/`buildL`/`buildTree`, plus an
  explicit-stack state machine `visitS`/`visitL`/`runVisitor` mirroring the
  Python visitor's `loop_stack`) — builds the hierarchical loop tree;
* `compute_complexity` — reduces the tree to a symbolic cost string.

Python `ast` expression nodes are embedded as `PyExpr`; only the shapes the
analyzer distinguishes are separated, everything else is `PyExpr.other`
(attribute access, subscripts, arithmetic, starred arguments, ...).
`ast.Constant` carries a value the analyzer never reads, so it is embedded
without a payload.  `ast.Call` keyword arguments are never inspected by the
analyzer (it only reads `.args`), so `call` carries the positional
argument list.
-/

/-- Embedding of the Python `ast` expression nodes distinguished by
`extract_iterable`. -/
inductive PyExpr : Type where
  | constant : PyExpr
  | listDisp : List PyExpr → PyExpr
  | tupleDisp : List PyExpr → PyExpr
  | setDisp : List PyExpr → PyExpr
  | dictDisp : List PyExpr → List PyExpr → PyExpr
  | name : String → PyExpr
  | call : PyExpr → List PyExpr → PyExpr
  | other : PyExpr

/-- `isinstance(arg, ast.Constant)` — the literal test used on `range`
arguments (complexity.py lines 43 and 48). -/
def is_const : PyExpr → Bool
  | .constant => true
  | _ => false

/-- Classification applied to the first non-constant `range` argument
(complexity.py lines 49–56): a bare `ast.Name`; a call to `len` whose
argument list is non-empty with an `ast.Name` in **first** position
(`arg.args and isinstance(arg.args[0], ast.Name)`); anything else is
`"len(other)"`. -/
def classify_nonconst_arg : PyExpr → String
  | .name id => "len(" ++ id ++ ")"
  | .call (.name "len") (.name inner :: _) => "len(" ++ inner ++ ")"
  | _ => "len(other)"

/-- The `for arg in iter_node.args:` scan of complexity.py lines 47–57:
skip constant arguments, classify the first non-constant one, and fall
through to `"len(other)"` if every argument was constant (dead code there,
since the all-constant case returned `"c"` earlier). -/
def classify_range_args : List PyExpr → String
  | [] => "len(other)"
  | arg :: rest =>
    if is_const arg then
      classify_range_args rest
    else
      classify_nonconst_arg arg

/-- `extract_iterable` (complexity.py lines 9–73): simplify a loop's
iteration source to `"c"`, `"len(<name>)"`, or `"len(other)"`. -/
def extract_iterable : PyExpr → String
  | .constant => "c"
  | .listDisp _ => "c"
  | .tupleDisp _ => "c"
  | .setDisp _ => "c"
  | .dictDisp _ _ => "c"
  | .call (.name fname) args =>
    if fname = "range" then
      if args.all is_const then "c"
      else classify_range_args args
    else if fname = "len" then
      match args with
      | .name id :: _ => "len(" ++ id ++ ")"
      | _ => "len(other)"
    else "len(other)"
  | .call _ _ => "len(other)"
  | .name id => "len(" ++ id ++ ")"
  | .other => "len(other)"

mutual
/-- Embedding of `LoopNode` (complexity.py lines 79–93): the synthetic
Global Root (`loop_type is None`), a `For` node carrying its simplified
iterable tag, or a `While` node.  The original AST node stored in the
Python object is never read by the evaluator and is dropped. -/
inductive LoopNode : Type where
  | root : LoopNodeList → LoopNode
  | forNode : String → LoopNodeList → LoopNode
  | whileNode : LoopNodeList → LoopNode

/-- Ordered list of children of a `LoopNode`. -/
inductive LoopNodeList : Type where
  | nil : LoopNodeList
  | cons : LoopNode → LoopNodeList → LoopNodeList
end

/-- Concatenation of child lists (used by the visitor model: the nodes of
a loop body followed by the nodes of its `orelse` clause). -/
def LoopNodeList.append : LoopNodeList → LoopNodeList → LoopNodeList
  | .nil, ys => ys
  | .cons x xs, ys => .cons x (LoopNodeList.append xs ys)

/-- `" + ".join(items)` — Python string join with separator `" + "`. -/
def joinPlus : List String → String
  | [] => ""
  | [c] => c
  | c :: cs => c ++ " + " ++ joinPlus cs

mutual
/-- `compute_complexity` (complexity.py lines 149–187): bottom-up symbolic
cost of a loop tree.  The Python trailing `return "1"` fallback is
unreachable because `loop_type` is always `None`, `"For"` or `"While"`. -/
def compute_complexity : LoopNode → String
  | .root children =>
    let costs := computeCosts children
    let non_ones := costs.filter (fun c => ¬ (c = "1"))
    if non_ones.isEmpty then "1" else joinPlus non_ones
  | .forNode iterable children =>
    let factor_expr := if iterable = "c" then "1" else iterable
    let inner :=
      match children with
      | .nil => "1"
      | _ => joinPlus (computeCosts children)
    if inner = "1" then factor_expr
    else if factor_expr = "1" then inner
    else factor_expr ++ "*(" ++ inner ++ ")"
  | .whileNode children =>
    let inner :=
      match children with
      | .nil => "1"
      | _ => joinPlus (computeCosts children)
    if inner = "1" then "?" else "?*(" ++ inner ++ ")"

/-- `[compute_complexity(child) for child in node.children]`. -/
def computeCosts : LoopNodeList → List String
  | .nil => []
  | .cons n ns => compute_complexity n :: computeCosts ns
end

example : extract_iterable (.call (.name "range") [.constant, .name "n"]) = "len(n)" := by decide
example : extract_iterable (.listDisp [.constant, .constant]) = "c" := by decide
example : extract_iterable (.call (.name "len") [.name "x", .constant]) = "len(x)" := by decide
example :
    compute_complexity
      (.root (.cons (.forNode "len(n)" (.cons (.forNode "c" .nil) .nil))
        (.cons (.forNode "len(num)" .nil) .nil))) = "len(n) + len(num)" := by decide
example :
    compute_complexity (.forNode "len(n)" (.cons (.forNode "c" .nil) (.cons (.forNode "c" .nil) .nil)))
      = "len(n)*(1 + 1)" := by decide

mutual
/-- Embedding of the Python statement shapes the tree builder
distinguishes: `ast.For` (its iteration source, its `body`, its `orelse`),
`ast.While` (`body` and `orelse`; the test expression contains no
statements, so `visit_While` never finds loops in it), and every other
statement (`generic_visit` recurses into all contained statement blocks in
source order without creating a node — `other` carries those blocks
flattened, in source order). -/
inductive PyStmt : Type where
  | forStmt : PyExpr → PyStmtList → PyStmtList → PyStmt
  | whileStmt : PyStmtList → PyStmtList → PyStmt
  | otherStmt : PyStmtList → PyStmt

/-- A block of statements in source order. -/
inductive PyStmtList : Type where
  | nil : PyStmtList
  | cons : PyStmt → PyStmtList → PyStmtList
end

mutual
/-- The loop nodes a single statement contributes at the current nesting
level: `visit_For`/`visit_While` contribute one node whose children come
from `body` then `orelse` (complexity.py lines 119–138), any other
statement contributes the loops `generic_visit` discovers inside it. -/
def buildS : PyStmt → LoopNodeList
  | .forStmt it body orelse =>
    .cons (.forNode (extract_iterable it) (LoopNodeList.append (buildL body) (buildL orelse))) .nil
  | .whileStmt body orelse =>
    .cons (.whileNode (LoopNodeList.append (buildL body) (buildL orelse))) .nil
  | .otherStmt sub => buildL sub

/-- Loop nodes contributed by a block of statements, in source order. -/
def buildL : PyStmtList → LoopNodeList
  | .nil => .nil
  | .cons s ss => LoopNodeList.append (buildS s) (buildL ss)
end

/-- The tree produced by `LoopTreeVisitor` on a module body: the Global
Root with the loop forest of the top-level statements. -/
def buildTree (body : PyStmtList) : LoopNode := .root (buildL body)

mutual
/-- Depth of the loop tree, counting the synthetic Root as depth zero:
each `For`/`While` node adds one level above the depth of its children. -/
def depth : LoopNode → Nat
  | .root cs => depthL cs
  | .forNode _ cs => 1 + depthL cs
  | .whileNode cs => 1 + depthL cs

/-- Maximum depth over a list of sibling nodes (zero when empty). -/
def depthL : LoopNodeList → Nat
  | .nil => 0
  | .cons n ns => max (depth n) (depthL ns)
end

mutual
/-- Maximum loop-nesting depth of one source statement: a loop counts one
level plus the deepest nesting inside its `body`/`orelse`; a non-loop
statement is transparent. -/
def nestDepth : PyStmt → Nat
  | .forStmt _ body orelse => 1 + max (nestDepthL body) (nestDepthL orelse)
  | .whileStmt body orelse => 1 + max (nestDepthL body) (nestDepthL orelse)
  | .otherStmt sub => nestDepthL sub

/-- Maximum loop-nesting depth over a block of statements. -/
def nestDepthL : PyStmtList → Nat
  | .nil => 0
  | .cons s ss => max (nestDepth s) (nestDepthL ss)
end

/-- One frame of the visitor's `loop_stack`: the node under construction
(Global Root, a `For` with its tag, or a `While`) together with the
children accumulated for it so far, in append order. -/
inductive Frame : Type where
  | rootF : LoopNodeList → Frame
  | forF : String → LoopNodeList → Frame
  | whileF : LoopNodeList → Frame

/-- `self.loop_stack[-1].children.append(new_loop)`: append one completed
node to the frame's accumulated children. -/
def Frame.addChild : Frame → LoopNode → Frame
  | .rootF acc, n => .rootF (LoopNodeList.append acc (.cons n .nil))
  | .forF tag acc, n => .forF tag (LoopNodeList.append acc (.cons n .nil))
  | .whileF acc, n => .whileF (LoopNodeList.append acc (.cons n .nil))

/-- Append a whole list of completed nodes to a frame's children. -/
def Frame.addChildren : Frame → LoopNodeList → Frame
  | .rootF acc, ns => .rootF (LoopNodeList.append acc ns)
  | .forF tag acc, ns => .forF tag (LoopNodeList.append acc ns)
  | .whileF acc, ns => .whileF (LoopNodeList.append acc ns)

/-- Append one completed node to the children of the top-of-stack frame
(no-op on an empty stack, which a run never produces). -/
def pushTop : List Frame → LoopNode → List Frame
  | [], _ => []
  | f :: fs, n => f.addChild n :: fs

mutual
/-- State-machine embedding of `LoopTreeVisitor.visit` on one statement:
`visit_For`/`visit_While` push a fresh frame, visit `body` then `orelse`,
then pop the finished frame and append its node to the new top of stack;
`generic_visit` just visits the contained blocks (complexity.py
lines 119–141).  The non-matching fallback cases are unreachable from a
run seeded with a single root frame. -/
def visitS : PyStmt → List Frame → List Frame
  | .forStmt it body orelse, st =>
    match visitL orelse (visitL body (.forF (extract_iterable it) .nil :: st)) with
    | .forF tag acc :: rest => pushTop rest (.forNode tag acc)
    | st1 => st1
  | .whileStmt body orelse, st =>
    match visitL orelse (visitL body (.whileF .nil :: st)) with
    | .whileF acc :: rest => pushTop rest (.whileNode acc)
    | st1 => st1
  | .otherStmt sub, st => visitL sub st

/-- Visit a block of statements in source order, threading the stack. -/
def visitL : PyStmtList → List Frame → List Frame
  | .nil, st => st
  | .cons s ss, st => visitL ss (visitS s st)
end

/-- One full run of the pipeline's tree-building stage: construct a fresh
visitor (`root` with `loop_stack = [root]`, complexity.py lines 115–117),
visit the module body, and read the root back off the stack.  The final
fallback is unreachable: a run always ends with exactly the root frame. -/
def runVisitor (body : PyStmtList) : LoopNode :=
  match visitL body [.rootF .nil] with
  | [.rootF acc] => .root acc
  | _ => .root .nil

example :
    runVisitor (.cons (.forStmt (.name "xs") (.cons (.whileStmt .nil .nil) .nil) .nil) .nil)
      = .root (.cons (.forNode "len(xs)" (.cons (.whileNode .nil) .nil)) .nil) := rfl

/-! ## Spec-side definitions

These follow the wording of the specification / claims, to be compared
with the code-side definitions above. -/

/-- Spec §4.3 Root rule, verbatim: drop every child cost equal to the
identity `"1"` from the sum unless every child cost is `"1"`, in which
case the result is `"1"`; otherwise the sum, in child order, of the
remaining non-identity costs. -/
def rootCostSpec (costs : List String) : String :=
  if costs.all (fun c => c = "1") then "1"
  else joinPlus (costs.filter (fun c => ¬ (c = "1")))

/-- Claim C1's For rule: `factor` is `"1"` for a constant tag and the tag
text otherwise; `inner` is the *Root-style* sum of the children's costs
(identity costs dropped unless all are `"1"`), or `"1"` with no children;
then the usual identity simplification. -/
def forCostClaimed (tag : String) (costs : List String) : String :=
  let factor := if tag = "c" then "1" else tag
  let inner := if costs.isEmpty then "1" else rootCostSpec costs
  if inner = "1" then factor
  else if factor = "1" then inner
  else factor ++ "*(" ++ inner ++ ")"

/-- Amended For rule (what the code does): `inner` is the plain `" + "`
join of *all* the children's costs in order, identity terms kept, or
`"1"` with no children; then the usual identity simplification. -/
def forCostAmended (tag : String) (costs : List String) : String :=
  let factor := if tag = "c" then "1" else tag
  let inner := if costs.isEmpty then "1" else joinPlus costs
  if inner = "1" then factor
  else if factor = "1" then inner
  else factor ++ "*(" ++ inner ++ ")"

/-- Claim C5's While rule: the bare `"?"` when the sum of the children's
costs is `"1"` (in particular with no children), else `"?*(inner)"`. -/
def whileCostSpec (costs : List String) : String :=
  let inner := if costs.isEmpty then "1" else joinPlus costs
  if inner = "1" then "?" else "?*(" ++ inner ++ ")"

/-- The `"1"`-costs of a list are exactly filtered away iff every cost is
`"1"`. -/
theorem filter_ne_one_eq_nil_iff (costs : List String) :
    (costs.filter (fun c => ¬ (c = "1"))) = [] ↔ costs.all (fun c => c = "1") = true := by
  induction costs with
  | nil => simp
  | cons c cs ih => by_cases h : c = "1" <;> simp [h, ih]

/-- Unfolding of the evaluator at a Root node. -/
theorem compute_root_eq (children : LoopNodeList) :
    compute_complexity (.root children) =
      (if ((computeCosts children).filter (fun c => ¬ (c = "1"))).isEmpty then "1"
       else joinPlus ((computeCosts children).filter (fun c => ¬ (c = "1")))) := rfl

/-- Unfolding of the evaluator at a For node. -/
theorem compute_for_eq (tag : String) (children : LoopNodeList) :
    compute_complexity (.forNode tag children) =
      (let factor_expr := if tag = "c" then "1" else tag
       let inner :=
         match children with
         | .nil => "1"
         | _ => joinPlus (computeCosts children)
       if inner = "1" then factor_expr
       else if factor_expr = "1" then inner
       else factor_expr ++ "*(" ++ inner ++ ")") := rfl

/-- Unfolding of the evaluator at a While node. -/
theorem compute_while_eq (children : LoopNodeList) :
    compute_complexity (.whileNode children) =
      (let inner :=
         match children with
         | .nil => "1"
         | _ => joinPlus (computeCosts children)
       if inner = "1" then "?" else "?*(" ++ inner ++ ")") := rfl

/-- The Root rule of the code coincides with the spec's Root rule. -/
theorem compute_root_spec (children : LoopNodeList) :
    compute_complexity (.root children) = rootCostSpec (computeCosts children) := by
  rw [compute_root_eq, rootCostSpec]
  by_cases h : (computeCosts children).all (fun c => c = "1") = true
  · rw [if_pos h, ((filter_ne_one_eq_nil_iff _).mpr h :
      (computeCosts children).filter (fun c => ¬ (c = "1")) = [])]
    rfl
  · rw [if_neg h]
    cases hf : (computeCosts children).filter (fun c => ¬ (c = "1")) with
    | nil => exact absurd ((filter_ne_one_eq_nil_iff _).mp hf) h
    | cons a l => rfl

/-- The For rule of the code coincides with the amended For rule (plain
join of all child costs, identity terms kept). -/
theorem compute_for_amended (tag : String) (children : LoopNodeList) :
    compute_complexity (.forNode tag children) = forCostAmended tag (computeCosts children) := by
  cases children <;> rfl

/-- The While rule of the code coincides with C5's While rule. -/
theorem compute_while_spec (children : LoopNodeList) :
    compute_complexity (.whileNode children) = whileCostSpec (computeCosts children) := by
  cases children <;> rfl

/-- A string is recovered from the middle of a concatenation with fixed
ends. -/
theorem append_cancel_mid (pre post a b : String)
    (h : pre ++ a ++ post = pre ++ b ++ post) : a = b := by
  have hd : pre.data ++ (a.data ++ post.data) = pre.data ++ (b.data ++ post.data) := by
    have h0 := congrArg String.data h
    simpa [String.data_append, List.append_assoc] using h0
  exact String.ext (List.append_cancel_right (List.append_cancel_left hd))

/-- The While rendering `"?*(1)"` never occurs: when the inner sum is
`"1"` the evaluator returns the bare `"?"`. -/
theorem while_never_q_times_one (children : LoopNodeList) :
    compute_complexity (.whileNode children) ≠ "?*(1)" := by
  rw [compute_while_spec, whileCostSpec]
  by_cases hi : (if (computeCosts children).isEmpty then "1"
      else joinPlus (computeCosts children)) = "1"
  · rw [if_pos hi]
    decide
  · rw [if_neg hi]
    intro hcontra
    exact hi (append_cancel_mid "?*(" ")" _ "1" hcontra)

/-! ## Tree depth -/

/-- Depth of a concatenation of sibling forests is the max of the two
depths. -/
theorem depthL_append : ∀ (a b : LoopNodeList),
    depthL (LoopNodeList.append a b) = max (depthL a) (depthL b)
  | .nil, b => by simp [LoopNodeList.append, depthL]
  | .cons n ns, b => by
    simp [LoopNodeList.append, depthL, depthL_append ns b, Nat.max_assoc]

mutual
/-- The forest a statement contributes has depth equal to the statement's
maximum loop-nesting depth. -/
theorem depthL_buildS : ∀ (s : PyStmt), depthL (buildS s) = nestDepth s
  | .forStmt it body orelse => by
    simp [buildS, nestDepth, depthL, depth, depthL_append,
      depthL_buildL body, depthL_buildL orelse]
  | .whileStmt body orelse => by
    simp [buildS, nestDepth, depthL, depth, depthL_append,
      depthL_buildL body, depthL_buildL orelse]
  | .otherStmt sub => by
    simp [buildS, nestDepth, depthL_buildL sub]

/-- The forest a block contributes has depth equal to the block's maximum
loop-nesting depth. -/
theorem depthL_buildL : ∀ (ss : PyStmtList), depthL (buildL ss) = nestDepthL ss
  | .nil => rfl
  | .cons s ss => by
    simp [buildL, nestDepthL, depthL_append, depthL_buildS s, depthL_buildL ss]
end

/-! ## The `range` argument scan -/

/-- Scanning skips any leading all-constant prefix. -/
theorem classify_range_args_skip : ∀ (pre : List PyExpr) (a : PyExpr) (rest : List PyExpr),
    pre.all is_const = true → is_const a = false →
    classify_range_args (pre ++ a :: rest) = classify_nonconst_arg a
  | [], a, rest, _, ha => by simp [classify_range_args, ha]
  | p :: ps, a, rest, hpre, ha => by
    rw [List.all_cons, Bool.and_eq_true] at hpre
    simp [classify_range_args, hpre.1, classify_range_args_skip ps a rest hpre.2 ha]

/-- A `range(...)` call with some non-constant argument is classified by
the scan. -/
theorem extract_range_not_all_const (args : List PyExpr) (h : args.all is_const = false) :
    extract_iterable (.call (.name "range") args) = classify_range_args args := by
  simp [extract_iterable, h]

/-- A `range(...)` call whose positional arguments are all constants is
classified `"c"`. -/
theorem extract_range_all_const (args : List PyExpr) (h : args.all is_const = true) :
    extract_iterable (.call (.name "range") args) = "c" := by
  simp [extract_iterable, h]

/-! ## Well-formed cost expressions (spec §3: symbolic cost vocabulary) -/

/-- The grammar of well-formed symbolic cost strings: the identity `"1"`,
the unknown marker `"?"`, a length term `len(...)`, a `" + "`-sum of two
well-formed costs, or a product of a length term or `"?"` with a
parenthesized well-formed inner sum. -/
inductive CostStr : String → Prop where
  | one : CostStr "1"
  | unknown : CostStr "?"
  | len (s : String) : CostStr ("len(" ++ s ++ ")")
  | sum (a b : String) : CostStr a → CostStr b → CostStr (a ++ " + " ++ b)
  | prodLen (s inner : String) : CostStr inner →
      CostStr ("len(" ++ s ++ ")" ++ "*(" ++ inner ++ ")")
  | prodUnknown (inner : String) : CostStr inner → CostStr ("?*(" ++ inner ++ ")")

mutual
/-- Every `For` node's tag is one actually producible by
`extract_iterable`: `"c"` or a `len(...)` text. -/
def ValidTags : LoopNode → Prop
  | .root cs => ValidTagsL cs
  | .forNode tag cs => (tag = "c" ∨ ∃ s, tag = "len(" ++ s ++ ")") ∧ ValidTagsL cs
  | .whileNode cs => ValidTagsL cs

/-- All nodes of a forest have valid tags. -/
def ValidTagsL : LoopNodeList → Prop
  | .nil => True
  | .cons n ns => ValidTags n ∧ ValidTagsL ns
end

/-- The classification of a non-constant `range` argument is always a
`len(...)` text. -/
theorem classify_nonconst_arg_shape (a : PyExpr) :
    ∃ s, classify_nonconst_arg a = "len(" ++ s ++ ")" := by
  unfold classify_nonconst_arg
  split
  · exact ⟨_, rfl⟩
  · exact ⟨_, rfl⟩
  · exact ⟨"other", rfl⟩

/-- The `range` argument scan always yields a `len(...)` text. -/
theorem classify_range_args_shape : ∀ (args : List PyExpr),
    ∃ s, classify_range_args args = "len(" ++ s ++ ")"
  | [] => ⟨"other", rfl⟩
  | arg :: rest => by
    unfold classify_range_args
    by_cases h : is_const arg = true
    · rw [if_pos h]
      exact classify_range_args_shape rest
    · rw [if_neg h]
      exact classify_nonconst_arg_shape arg

/-- `extract_iterable` only ever returns `"c"` or a `len(...)` text. -/
theorem extract_iterable_shape (e : PyExpr) :
    extract_iterable e = "c" ∨ ∃ s, extract_iterable e = "len(" ++ s ++ ")" := by
  unfold extract_iterable
  split
  · exact Or.inl rfl
  · exact Or.inl rfl
  · exact Or.inl rfl
  · exact Or.inl rfl
  · exact Or.inl rfl
  · rename_i fname args
    by_cases hr : fname = "range"
    · rw [if_pos hr]
      by_cases hall : args.all is_const = true
      · rw [if_pos hall]
        exact Or.inl rfl
      · rw [if_neg hall]
        exact Or.inr (classify_range_args_shape args)
    · rw [if_neg hr]
      by_cases hl : fname = "len"
      · rw [if_pos hl]
        refine Or.inr ?_
        split
        · exact ⟨_, rfl⟩
        · exact ⟨"other", rfl⟩
      · rw [if_neg hl]
        exact Or.inr ⟨"other", rfl⟩
  · exact Or.inr ⟨"other", rfl⟩
  · exact Or.inr ⟨_, rfl⟩
  · exact Or.inr ⟨"other", rfl⟩

/-- Valid tags are preserved by forest concatenation. -/
theorem validL_append : ∀ (a b : LoopNodeList),
    ValidTagsL a → ValidTagsL b → ValidTagsL (LoopNodeList.append a b)
  | .nil, _, _, hb => hb
  | .cons _ ns, b, ha, hb => ⟨ha.1, validL_append ns b ha.2 hb⟩

mutual
/-- Every node the tree builder creates carries a valid tag. -/
theorem valid_buildS : ∀ (s : PyStmt), ValidTagsL (buildS s)
  | .forStmt it body orelse =>
    ⟨⟨extract_iterable_shape it,
      validL_append _ _ (valid_buildL body) (valid_buildL orelse)⟩, trivial⟩
  | .whileStmt body orelse =>
    ⟨validL_append _ _ (valid_buildL body) (valid_buildL orelse), trivial⟩
  | .otherStmt sub => valid_buildL sub

/-- Every forest the tree builder creates carries valid tags. -/
theorem valid_buildL : ∀ (ss : PyStmtList), ValidTagsL (buildL ss)
  | .nil => trivial
  | .cons s ss => validL_append _ _ (valid_buildS s) (valid_buildL ss)
end

/-- A `len(...)` text is never a one-character string. -/
theorem len_tag_ne (s t : String) (ht : t.length = 1) : "len(" ++ s ++ ")" ≠ t := by
  intro h
  have hlen := congrArg String.length h
  rw [String.length_append, String.length_append, ht] at hlen
  have h4 : ("len(" : String).length = 4 := rfl
  have h1 : (")" : String).length = 1 := rfl
  omega

/-- A `" + "`-join of well-formed costs is well-formed. -/
theorem joinPlus_cost : ∀ (l : List String), l ≠ [] → (∀ c ∈ l, CostStr c) →
    CostStr (joinPlus l)
  | [c], _, h => by
    simpa [joinPlus] using h c (by simp)
  | c :: d :: ds, _, h => by
    have htail : CostStr (joinPlus (d :: ds)) :=
      joinPlus_cost (d :: ds) (by simp) (fun x hx => h x (by simp [hx]))
    simpa [joinPlus] using CostStr.sum c (joinPlus (d :: ds)) (h c (by simp)) htail

/-- The amended For rule produces a well-formed cost from a valid tag and
well-formed child costs. -/
theorem forCostAmended_cost (tag : String) (costs : List String)
    (htag : tag = "c" ∨ ∃ s, tag = "len(" ++ s ++ ")")
    (hcosts : ∀ c ∈ costs, CostStr c) : CostStr (forCostAmended tag costs) := by
  have hinner : CostStr (if costs.isEmpty then "1" else joinPlus costs) := by
    cases costs with
    | nil => exact CostStr.one
    | cons c cs => exact joinPlus_cost (c :: cs) (by simp) hcosts
  simp only [forCostAmended]
  by_cases hc : tag = "c"
  · rw [if_pos hc]
    by_cases h1 : (if costs.isEmpty then "1" else joinPlus costs) = "1"
    · rw [if_pos h1]
      exact CostStr.one
    · rw [if_neg h1, if_pos rfl]
      exact hinner
  · obtain ⟨s, rfl⟩ := htag.resolve_left hc
    rw [if_neg hc]
    by_cases h1 : (if costs.isEmpty then "1" else joinPlus costs) = "1"
    · rw [if_pos h1]
      exact CostStr.len s
    · rw [if_neg h1, if_neg (len_tag_ne s "1" rfl)]
      exact CostStr.prodLen s _ hinner

/-- The While rule produces a well-formed cost from well-formed child
costs. -/
theorem whileCostSpec_cost (costs : List String)
    (hcosts : ∀ c ∈ costs, CostStr c) : CostStr (whileCostSpec costs) := by
  have hinner : CostStr (if costs.isEmpty then "1" else joinPlus costs) := by
    cases costs with
    | nil => exact CostStr.one
    | cons c cs => exact joinPlus_cost (c :: cs) (by simp) hcosts
  simp only [whileCostSpec]
  by_cases h1 : (if costs.isEmpty then "1" else joinPlus costs) = "1"
  · rw [if_pos h1]
    exact CostStr.unknown
  · rw [if_neg h1]
    exact CostStr.prodUnknown _ hinner

mutual
/-- On any tree with valid tags, the evaluator returns a well-formed
symbolic cost expression. -/
theorem cost_wf : ∀ (n : LoopNode), ValidTags n → CostStr (compute_complexity n)
  | .root cs, h => by
    rw [compute_root_eq]
    cases hf : (computeCosts cs).filter (fun c => ¬ (c = "1")) with
    | nil => exact CostStr.one
    | cons a l =>
      have hmem : ∀ c ∈ a :: l, CostStr c := by
        intro c hc
        have : c ∈ (computeCosts cs).filter (fun c => ¬ (c = "1")) := hf ▸ hc
        exact costs_wf cs h c (List.mem_of_mem_filter this)
      simpa using joinPlus_cost (a :: l) (by simp) hmem
  | .forNode tag cs, h => by
    rw [compute_for_amended]
    exact forCostAmended_cost tag (computeCosts cs) h.1 (costs_wf cs h.2)
  | .whileNode cs, h => by
    rw [compute_while_spec]
    exact whileCostSpec_cost (computeCosts cs) (costs_wf cs h)

/-- All child costs of a valid forest are well-formed. -/
theorem costs_wf : ∀ (ns : LoopNodeList), ValidTagsL ns →
    ∀ c ∈ computeCosts ns, CostStr c
  | .nil, _, c, hc => by simp [computeCosts] at hc
  | .cons n ns, h, c, hc => by
    rcases (by simpa [computeCosts] using hc : c = compute_complexity n ∨ c ∈ computeCosts ns) with h1 | h2
    · exact h1 ▸ cost_wf n h.1
    · exact costs_wf ns h.2 c h2
end

/-! ## The explicit-stack visitor run equals the pure builder -/

/-- Appending the empty forest is the identity. -/
theorem LoopNodeList.append_nil : ∀ (a : LoopNodeList), LoopNodeList.append a .nil = a
  | .nil => rfl
  | .cons n ns => by rw [LoopNodeList.append, LoopNodeList.append_nil ns]

/-- Forest concatenation is associative. -/
theorem LoopNodeList.append_assoc : ∀ (a b c : LoopNodeList),
    LoopNodeList.append (LoopNodeList.append a b) c
      = LoopNodeList.append a (LoopNodeList.append b c)
  | .nil, _, _ => rfl
  | .cons n ns, b, c => by
    rw [LoopNodeList.append, LoopNodeList.append, LoopNodeList.append,
      LoopNodeList.append_assoc ns b c]

/-- Appending one child is appending a singleton forest. -/
theorem Frame.addChild_eq (f : Frame) (n : LoopNode) :
    f.addChild n = f.addChildren (.cons n .nil) := by
  cases f <;> rfl

/-- Consecutive child-list appends fuse. -/
theorem Frame.addChildren_addChildren (f : Frame) (a b : LoopNodeList) :
    (f.addChildren a).addChildren b = f.addChildren (LoopNodeList.append a b) := by
  cases f <;> simp [Frame.addChildren, LoopNodeList.append_assoc]

/-- Appending no children is the identity. -/
theorem Frame.addChildren_nil (f : Frame) : f.addChildren .nil = f := by
  cases f <;> simp [Frame.addChildren, LoopNodeList.append_nil]

mutual
/-- Visiting one statement from any non-empty stack appends exactly the
statement's loop forest to the top frame's children. -/
theorem visitS_frames : ∀ (s : PyStmt) (f : Frame) (st : List Frame),
    visitS s (f :: st) = f.addChildren (buildS s) :: st
  | .forStmt it body orelse, f, st => by
    rw [visitS, visitL_frames body (.forF (extract_iterable it) .nil) (f :: st),
      visitL_frames orelse _ (f :: st), Frame.addChildren_addChildren]
    show f.addChild (.forNode (extract_iterable it)
        (LoopNodeList.append (buildL body) (buildL orelse))) :: st
      = f.addChildren (buildS (.forStmt it body orelse)) :: st
    rw [Frame.addChild_eq]
    rfl
  | .whileStmt body orelse, f, st => by
    rw [visitS, visitL_frames body (.whileF .nil) (f :: st),
      visitL_frames orelse _ (f :: st), Frame.addChildren_addChildren]
    show f.addChild (.whileNode
        (LoopNodeList.append (buildL body) (buildL orelse))) :: st
      = f.addChildren (buildS (.whileStmt body orelse)) :: st
    rw [Frame.addChild_eq]
    rfl
  | .otherStmt sub, f, st => by
    rw [visitS, visitL_frames sub f st, buildS]

/-- Visiting a block from any non-empty stack appends the block's loop
forest to the top frame's children. -/
theorem visitL_frames : ∀ (ss : PyStmtList) (f : Frame) (st : List Frame),
    visitL ss (f :: st) = f.addChildren (buildL ss) :: st
  | .nil, f, st => by
    rw [visitL, buildL, Frame.addChildren_nil]
  | .cons s ss, f, st => by
    rw [visitL, visitS_frames s f st, visitL_frames ss (f.addChildren (buildS s)) st,
      Frame.addChildren_addChildren, buildL]
end

/-- A fresh visitor run (root frame, singleton stack) produces exactly the
pure builder's tree. -/
theorem runVisitor_eq_buildTree (body : PyStmtList) : runVisitor body = buildTree body := by
  rw [runVisitor, visitL_frames body (.rootF .nil) []]
  rfl

/-! ## Constant loop-free For nodes -/

/-- A constant-classified, loop-free For node: tag `"c"`, no children. -/
def isConstLeafFor : LoopNode → Bool
  | .forNode tag .nil => tag == "c"
  | _ => false

/-- A forest consisting only of constant-classified, loop-free For
nodes. -/
def allConstLeafFor : LoopNodeList → Bool
  | .nil => true
  | .cons n ns => isConstLeafFor n && allConstLeafFor ns

/-- A constant-classified, loop-free For node evaluates to `"1"`. -/
theorem isConstLeafFor_cost (n : LoopNode) (h : isConstLeafFor n = true) :
    compute_complexity n = "1" := by
  cases n with
  | root cs => exact absurd h (by simp [isConstLeafFor])
  | whileNode cs => exact absurd h (by simp [isConstLeafFor])
  | forNode tag cs =>
    cases cs with
    | cons m ms => exact absurd h (by simp [isConstLeafFor])
    | nil =>
      have htag : tag = "c" := by simpa [isConstLeafFor] using h
      subst htag
      rfl

/-- The costs of a forest of constant loop-free For nodes are all `"1"`. -/
theorem allConstLeafFor_costs : ∀ (ns : LoopNodeList), allConstLeafFor ns = true →
    (computeCosts ns).all (fun c => c = "1") = true
  | .nil, _ => rfl
  | .cons n ns, h => by
    rw [allConstLeafFor, Bool.and_eq_true] at h
    simp [computeCosts, List.all_cons, isConstLeafFor_cost n h.1,
      allConstLeafFor_costs ns h.2]

/-! ## Claim-side `range` rule (sole-argument `len`, as the claim words it) -/

/-- Claim C3's classification of one non-literal `range` argument: a bare
identifier, or a call to `len` whose **sole** argument is a bare
identifier; anything else is `"len(other)"`. -/
def claimArgClass : PyExpr → String
  | .name id => "len(" ++ id ++ ")"
  | .call (.name "len") [.name inner] => "len(" ++ inner ++ ")"
  | _ => "len(other)"

/-- Claim C3's left-to-right scan for the first non-literal argument. -/
def claimScan : List PyExpr → String
  | [] => "len(other)"
  | a :: rest => if is_const a then claimScan rest else claimArgClass a

/-- Claim C3's `range` rule: constant when every positional argument is a
literal, otherwise decided by the first non-literal argument. -/
def rangeClassClaimed (args : List PyExpr) : String :=
  if args.all is_const then "c" else claimScan args

/-! ## The sample program embedded in complexity.py (lines 193–199) -/

/-- The module body of the embedded sample:
`for i in range(1,n): for j in ['a','b','c']: print(i, j)` followed by
`for i in num: print(1)`.  The `print(...)` expression statements contain
no nested statements. -/
def sample_code : PyStmtList :=
  .cons (.forStmt (.call (.name "range") [.constant, .name "n"])
      (.cons (.forStmt (.listDisp [.constant, .constant, .constant])
        (.cons (.otherStmt .nil) .nil) .nil) .nil)
      .nil)
    (.cons (.forStmt (.name "num") (.cons (.otherStmt .nil) .nil) .nil) .nil)

/-! ## Claims -/

/-- **C1** (counterexample): the For rule does *not* take the Root-style
sum of its children's costs.  A `For` node tagged `len(n)` with two
constant loop-free children evaluates to `"len(n)*(1 + 1)"`, while the
claimed rule (identity child costs dropped) predicts `"len(n)"`. -/
theorem C1_counterexample :
    compute_complexity (.forNode "len(n)"
        (.cons (.forNode "c" .nil) (.cons (.forNode "c" .nil) .nil)))
      = "len(n)*(1 + 1)"
    ∧ forCostClaimed "len(n)"
        (computeCosts (.cons (.forNode "c" .nil) (.cons (.forNode "c" .nil) .nil)))
      = "len(n)"
    ∧ ("len(n)*(1 + 1)" : String) ≠ "len(n)" := by
  refine ⟨by decide, by decide, by decide⟩

/-- **C1** (amended): for every For node, `factor` is `"1"` for a
constant tag and the tag's `len(...)` text otherwise; `inner` is the
plain `" + "`-join of *all* the children's costs in child order (identity
terms kept, nothing dropped), or `"1"` if there are no children; the cost
is `factor` if `inner == "1"`, else `inner` if `factor == "1"`, else
`factor*(inner)` with the inner sum parenthesized. -/
theorem C1_for_cost_amended (tag : String) (children : LoopNodeList) :
    compute_complexity (.forNode tag children)
      = forCostAmended tag (computeCosts children) :=
  compute_for_amended tag children

/-- **C2**: the Root cost is the sum, in child order, of the children's
costs with the `"1"` terms dropped, except that it is exactly `"1"` when
every child cost is `"1"`; in particular a Root whose children are all
constant-classified loop-free For nodes (or no loops at all) yields
`"1"`. -/
theorem C2_root_cost (children : LoopNodeList) :
    compute_complexity (.root children) = rootCostSpec (computeCosts children)
    ∧ (allConstLeafFor children = true → compute_complexity (.root children) = "1")
    ∧ compute_complexity (.root .nil) = "1" := by
  refine ⟨compute_root_spec children, ?_, rfl⟩
  intro h
  rw [compute_root_spec, rootCostSpec, if_pos (allConstLeafFor_costs children h)]

/-- **C2** witness: a Root with two constant loop-free For children
evaluates to `"1"`. -/
theorem C2_root_cost_witness :
    compute_complexity (.root (.cons (.forNode "c" .nil) (.cons (.forNode "c" .nil) .nil)))
      = "1" :=
  (C2_root_cost (.cons (.forNode "c" .nil) (.cons (.forNode "c" .nil) .nil))).2.1 (by decide)

/-- **C3** (counterexample): the claim's `range` rule classifies a `len`
call only when a bare identifier is its *sole* argument, predicting
`len(other)` for `range(len(x, 0))`; the code checks only the first
argument and returns `"len(x)"` there. -/
theorem C3_counterexample :
    extract_iterable (.call (.name "range") [.call (.name "len") [.name "x", .constant]])
      = "len(x)"
    ∧ rangeClassClaimed [.call (.name "len") [.name "x", .constant]] = "len(other)"
    ∧ ("len(x)" : String) ≠ "len(other)" := by
  refine ⟨by decide, by decide, by decide⟩

/-- **C3** (amended): a `range(...)` call is `"c"` when every positional
argument is a literal constant; otherwise the result is decided solely by
the first non-literal argument scanned left to right (a bare identifier
gives its `len(name)`; a call to `len` whose **first** argument is a bare
identifier gives that identifier's `len(name)`; anything else gives
`len(other)`), and the arguments after the first non-literal one are
never inspected: replacing them by anything never changes the result. -/
theorem C3_range_first_nonliteral :
    (∀ (args : List PyExpr), args.all is_const = true →
      extract_iterable (.call (.name "range") args) = "c")
    ∧ (∀ (pre : List PyExpr) (a : PyExpr) (rest rest2 : List PyExpr),
      pre.all is_const = true → is_const a = false →
      extract_iterable (.call (.name "range") (pre ++ a :: rest))
          = classify_nonconst_arg a
        ∧ extract_iterable (.call (.name "range") (pre ++ a :: rest))
          = extract_iterable (.call (.name "range") (pre ++ a :: rest2))) := by
  constructor
  · intro args h
    exact extract_range_all_const args h
  · intro pre a rest rest2 hpre ha
    have hall : ∀ (r : List PyExpr), (pre ++ a :: r).all is_const = false := by
      intro r
      simp [List.all_append, List.all_cons, hpre, ha]
    have h1 := extract_range_not_all_const _ (hall rest)
    have h2 := extract_range_not_all_const _ (hall rest2)
    rw [h1, h2, classify_range_args_skip pre a rest hpre ha,
      classify_range_args_skip pre a rest2 hpre ha]
    exact ⟨rfl, rfl⟩

/-- **C3** witness: for `range(0, n, m)`, the first non-literal argument
`n` decides the result `"len(n)"`, and replacing the trailing argument
`m` by a call leaves it unchanged. -/
theorem C3_range_first_nonliteral_witness :
    ([PyExpr.constant].all is_const = true ∧ is_const (.name "n") = false)
    ∧ extract_iterable (.call (.name "range") [.constant, .name "n", .name "m"])
        = classify_nonconst_arg (.name "n")
    ∧ extract_iterable (.call (.name "range") [.constant, .name "n", .name "m"])
      = extract_iterable (.call (.name "range")
          [.constant, .name "n", .call (.name "f") []]) :=
  ⟨⟨by decide, by decide⟩,
    C3_range_first_nonliteral.2 [.constant] (.name "n") [.name "m"]
      [.call (.name "f") []] (by decide) (by decide)⟩

/-- **C4** (code evaluated at the failing input): for the iteration
source `len(x, 0)` — a `len` call whose first argument is a bare
identifier but which has a further argument — the code returns
`"len(x)"`, not the `"len(other)"` its own docstring ("If its sole
argument is a Name") and the spec require. -/
theorem C4_len_first_arg_eval :
    extract_iterable (.call (.name "len") [.name "x", .constant]) = "len(x)"
    ∧ extract_iterable (.call (.name "range") [.call (.name "len") [.name "x", .constant]])
      = "len(x)"
    ∧ ("len(x)" : String) ≠ "len(other)" := by
  refine ⟨by decide, by decide, by decide⟩

/-- **C5**: a While node costs the bare `"?"` exactly when the join of
its children's costs is `"1"` — in particular with no children, or
wrapping a single constant-iterable loop-free For node — and otherwise
`"?*(inner)"` with the inner sum parenthesized; the rendering `"?*(1)"`
never occurs. -/
theorem C5_while_cost (children : LoopNodeList) :
    compute_complexity (.whileNode children) = whileCostSpec (computeCosts children)
    ∧ (children = .nil → compute_complexity (.whileNode children) = "?")
    ∧ (children = .cons (.forNode "c" .nil) .nil →
        compute_complexity (.whileNode children) = "?")
    ∧ compute_complexity (.whileNode children) ≠ "?*(1)" := by
  refine ⟨compute_while_spec children, ?_, ?_, while_never_q_times_one children⟩
  · rintro rfl
    rfl
  · rintro rfl
    rfl

/-- **C5** witness: a While wrapping one constant loop-free For node
costs the bare `"?"`, and its cost is not `"?*(1)"`. -/
theorem C5_while_cost_witness :
    compute_complexity (.whileNode (.cons (.forNode "c" .nil) .nil)) = "?"
    ∧ compute_complexity (.whileNode (.cons (.forNode "c" .nil) .nil)) ≠ "?*(1)" :=
  ⟨(C5_while_cost (.cons (.forNode "c" .nil) .nil)).2.2.1 rfl,
    (C5_while_cost (.cons (.forNode "c" .nil) .nil)).2.2.2⟩

/-- **C6**: on the embedded sample program, the pipeline builds the
two-loop tree, the inner nested loop costs `"1"`, the outer loop costs
`"len(n)"`, the second top-level loop costs `"len(num)"`, and the Root
expression is exactly `"len(n) + len(num)"`. -/
theorem C6_sample_pipeline :
    buildTree sample_code
      = .root (.cons (.forNode "len(n)" (.cons (.forNode "c" .nil) .nil))
          (.cons (.forNode "len(num)" .nil) .nil))
    ∧ compute_complexity (.forNode "c" .nil) = "1"
    ∧ compute_complexity (.forNode "len(n)" (.cons (.forNode "c" .nil) .nil)) = "len(n)"
    ∧ compute_complexity (.forNode "len(num)" .nil) = "len(num)"
    ∧ compute_complexity (buildTree sample_code) = "len(n) + len(num)" := by
  refine ⟨rfl, by decide, by decide, by decide, by decide⟩

/-- **C7**: for every module body, the depth of the built LoopNode tree
(Root at depth zero) equals the maximum loop-nesting depth of the source,
counting a loop nested anywhere inside another loop's body or `orelse`
regardless of intervening non-loop statements. -/
theorem C7_depth_eq_nesting (body : PyStmtList) :
    depth (buildTree body) = nestDepthL body :=
  depthL_buildL body

/-- **C8**: the pipeline is deterministic — two runs of the stateful
visitor followed by the evaluator on equal inputs give structurally
identical trees and character-identical expressions, and each fresh run
equals the pure (stateless) builder, so no state survives an
invocation. -/
theorem C8_pipeline_deterministic (b1 b2 : PyStmtList) (h : b1 = b2) :
    runVisitor b1 = runVisitor b2
    ∧ compute_complexity (runVisitor b1) = compute_complexity (runVisitor b2)
    ∧ runVisitor b1 = buildTree b1 := by
  subst h
  exact ⟨rfl, rfl, runVisitor_eq_buildTree b1⟩

/-- **C8** witness: two runs on the one-While module body coincide and
match the pure builder. -/
theorem C8_pipeline_deterministic_witness :
    runVisitor (.cons (.whileStmt .nil .nil) .nil)
      = runVisitor (.cons (.whileStmt .nil .nil) .nil)
    ∧ compute_complexity (runVisitor (.cons (.whileStmt .nil .nil) .nil))
      = compute_complexity (runVisitor (.cons (.whileStmt .nil .nil) .nil))
    ∧ runVisitor (.cons (.whileStmt .nil .nil) .nil)
      = buildTree (.cons (.whileStmt .nil .nil) .nil) :=
  C8_pipeline_deterministic (.cons (.whileStmt .nil .nil) .nil)
    (.cons (.whileStmt .nil .nil) .nil) rfl

/-- **C9**: the evaluator is total — it is a function defined on every
finite LoopNode tree — and on every tree whose For tags are ones the
classifier can produce it returns a well-formed symbolic cost expression;
moreover every tree the builder produces has such tags. -/
theorem C9_evaluator_wellformed :
    (∀ (n : LoopNode), ValidTags n → CostStr (compute_complexity n))
    ∧ (∀ (body : PyStmtList), ValidTags (buildTree body)) :=
  ⟨cost_wf, fun body => valid_buildL body⟩

/-- **C9** witness: the hypothesis holds and well-formedness follows at a
concrete one-loop tree. -/
theorem C9_evaluator_wellformed_witness :
    ValidTags (.forNode "c" .nil)
    ∧ CostStr (compute_complexity (.forNode "c" .nil)) :=
  ⟨⟨Or.inl rfl, trivial⟩, C9_evaluator_wellformed.1 (.forNode "c" .nil) ⟨Or.inl rfl, trivial⟩⟩

/-- **C10**: any list, tuple, set, or dict display is classified `"c"`
from the outer node alone — the elements are never inspected, so even a
display of calls and identifiers is constant. -/
theorem C10_container_constant :
    (∀ (elems : List PyExpr), extract_iterable (.listDisp elems) = "c")
    ∧ (∀ (elems : List PyExpr), extract_iterable (.tupleDisp elems) = "c")
    ∧ (∀ (elems : List PyExpr), extract_iterable (.setDisp elems) = "c")
    ∧ (∀ (keys vals : List PyExpr), extract_iterable (.dictDisp keys vals) = "c")
    ∧ extract_iterable (.listDisp [.call (.name "f") [.name "y"], .name "x"]) = "c" :=
  ⟨fun _ => rfl, fun _ => rfl, fun _ => rfl, fun _ _ => rfl, rfl⟩
